import Mathlib

/-!
Verification of the health-tracker client (webapp) against its
natural-language specification.

The development shallowly embeds the TypeScript sources:

* `src/webapp/src/lib/domain/model.ts` — the data model (`Symptom`,
  `Metric`, `Intensity`, `Settings`); JavaScript `Date`s are embedded as
  `Int` epoch milliseconds, strings as `String`, and the free-text
  `notes` field as `List Char` so that the numeric-intensity prefix
  parser can be reasoned about structurally.
* `src/webapp/src/lib/adapters/remoteStorage.ts` — the change queue
  (`ChangeToPush`, `getChangeId`, `getChangeDate`, `mergeChanges`,
  `RemoteStorage.queueChange`), the pull-anchor computation
  (`getLastPullDate`), the pull/reconcile pipeline
  (`comparePulledDataWithQueuedToPushData`) and the sync tick
  (`innerProcess`).
* `src/webapp/src/lib/domain/symptoms.ts` / `metrics.ts` — the domain
  stores, and the alternate `MetricManager` copy found in
  `src/unnamed/part_004`.
* the autocompleters (`src/unnamed/part_006`, `src/unnamed/part_008`)
  and the numeric-intensity helpers (`src/unnamed/part_004`).

JavaScript `Map`s are embedded as insertion-ordered association lists
(`set` overwrites in place, `delete` filters), JavaScript `Set`s as
duplicate-free lists built by first-occurrence insertion, and thrown
exceptions as `Option`/dedicated result constructors.
-/

/-- Epoch milliseconds, the embedding of a JavaScript `Date`. -/
abbrev DateMs := Int

/-- Embedding of `Intensity` from `src/webapp/src/lib/domain/model.ts`. -/
inductive Intensity where
  | low
  | medium
  | high
  deriving DecidableEq, Repr

/-- Embedding of `Symptom` from `src/webapp/src/lib/domain/model.ts`. -/
structure Symptom where
  id : String
  name : String
  otherNames : List String
  lastModified : DateMs
  deriving DecidableEq, Repr

/-- Embedding of `Metric` from `src/webapp/src/lib/domain/model.ts`;
`notes` is the free text as a list of characters. -/
structure Metric where
  id : String
  symptomId : String
  intensity : Intensity
  date : DateMs
  notes : List Char
  lastModified : DateMs
  deriving DecidableEq, Repr

/-! ## JavaScript `Map` as an insertion-ordered association list -/

/-- `Map.get(k)`: the value at the first (hence unique) entry with key `k`. -/
def mapGet {κ α : Type} [DecidableEq κ] (m : List (κ × α)) (k : κ) : Option α :=
  match m with
  | [] => none
  | (k1, v1) :: rest => if k1 = k then some v1 else mapGet rest k

/-- `Map.set(k, v)`: overwrite the entry with key `k` in place, or append. -/
def mapSet {κ α : Type} [DecidableEq κ] (m : List (κ × α)) (k : κ) (v : α) :
    List (κ × α) :=
  match m with
  | [] => [(k, v)]
  | (k1, v1) :: rest =>
      if k1 = k then (k, v) :: rest else (k1, v1) :: mapSet rest k v

/-- `Map.delete(k)`: remove the entry with key `k`. -/
def mapDelete {κ α : Type} [DecidableEq κ] (m : List (κ × α)) (k : κ) :
    List (κ × α) :=
  match m with
  | [] => []
  | (k1, v1) :: rest =>
      if k1 = k then mapDelete rest k else (k1, v1) :: mapDelete rest k

/-- The keys of a `Map` embedding are pairwise distinct. -/
def keysNodup {κ α : Type} (m : List (κ × α)) : Prop :=
  (m.map Prod.fst).Nodup

@[simp]
theorem mapGet_nil {κ α : Type} [DecidableEq κ] (k : κ) : mapGet ([] : List (κ × α)) k = none :=
  rfl

theorem mapGet_mapSet_self {κ α : Type} [DecidableEq κ] (m : List (κ × α)) (k : κ) (v : α) :
    mapGet (mapSet m k v) k = some v := by
  induction m with
  | nil => simp [mapGet, mapSet]
  | cons e rest ih =>
      obtain ⟨k1, v1⟩ := e
      by_cases h : k1 = k
      · simp [mapGet, mapSet, h]
      · simp [mapGet, mapSet, h, ih]

theorem mapGet_mapSet_ne {κ α : Type} [DecidableEq κ] (m : List (κ × α)) (k k2 : κ) (v : α)
    (h : k2 ≠ k) : mapGet (mapSet m k v) k2 = mapGet m k2 := by
  have hkk : ¬(k = k2) := fun hh => h hh.symm
  induction m with
  | nil => simp [mapSet, mapGet, hkk]
  | cons e rest ih =>
      obtain ⟨k1, v1⟩ := e
      by_cases h1 : k1 = k
      · simp [mapSet, mapGet, h1, hkk]
      · by_cases h2 : k1 = k2
        · simp [mapSet, mapGet, h1, h2, h]
        · simp [mapSet, mapGet, h1, h2, ih]

theorem mapGet_mapDelete_self {κ α : Type} [DecidableEq κ] (m : List (κ × α)) (k : κ) :
    mapGet (mapDelete m k) k = none := by
  induction m with
  | nil => rfl
  | cons e rest ih =>
      obtain ⟨k1, v1⟩ := e
      by_cases h : k1 = k
      · simp [mapDelete, h, ih]
      · simp [mapDelete, mapGet, h, ih]

theorem mapGet_mapDelete_ne {κ α : Type} [DecidableEq κ] (m : List (κ × α)) (k k2 : κ)
    (h : k2 ≠ k) : mapGet (mapDelete m k) k2 = mapGet m k2 := by
  have hkk : ¬(k = k2) := fun hh => h hh.symm
  induction m with
  | nil => rfl
  | cons e rest ih =>
      obtain ⟨k1, v1⟩ := e
      by_cases h1 : k1 = k
      · simp [mapDelete, mapGet, h1, hkk, ih]
      · by_cases h2 : k1 = k2
        · simp [mapDelete, mapGet, h1, h2, h]
        · simp [mapDelete, mapGet, h1, h2, ih]

theorem mem_keys_mapSet {κ α : Type} [DecidableEq κ] (l : List (κ × α)) (k k1 : κ) (v : α)
    (h : k1 ∈ (mapSet l k v).map Prod.fst) : k1 ∈ l.map Prod.fst ∨ k1 = k := by
  induction l with
  | nil =>
      simp only [mapSet, List.map_cons, List.map_nil, List.mem_singleton] at h
      exact Or.inr h
  | cons e rest ih =>
      obtain ⟨k3, v3⟩ := e
      by_cases h3 : k3 = k
      · simp only [mapSet, if_pos h3, List.map_cons, List.mem_cons] at h
        rcases h with h | h
        · exact Or.inr h
        · exact Or.inl (List.mem_cons_of_mem _ h)
      · simp only [mapSet, if_neg h3, List.map_cons, List.mem_cons] at h
        rcases h with h | h
        · exact Or.inl (by simp [h])
        · rcases ih h with hh | hh
          · exact Or.inl (List.mem_cons_of_mem _ hh)
          · exact Or.inr hh

theorem keysNodup_mapSet {κ α : Type} [DecidableEq κ] (m : List (κ × α)) (k : κ) (v : α)
    (h : keysNodup m) : keysNodup (mapSet m k v) := by
  induction m with
  | nil => simp [keysNodup, mapSet]
  | cons e rest ih =>
      obtain ⟨k1, v1⟩ := e
      simp only [keysNodup, List.map_cons, List.nodup_cons] at h
      by_cases h1 : k1 = k
      · simp only [keysNodup, mapSet, if_pos h1, List.map_cons, List.nodup_cons]
        rw [h1] at h
        exact h
      · have hrest : keysNodup (mapSet rest k v) := ih h.2
        simp only [keysNodup, mapSet, if_neg h1, List.map_cons, List.nodup_cons]
        refine ⟨?_, hrest⟩
        intro hmem
        rcases mem_keys_mapSet rest k k1 v hmem with hh | hh
        · exact h.1 hh
        · exact h1 hh

theorem sublist_mapDelete {κ α : Type} [DecidableEq κ] (m : List (κ × α)) (k : κ) :
    (mapDelete m k).Sublist m := by
  induction m with
  | nil => simp [mapDelete]
  | cons e rest ih =>
      obtain ⟨k1, v1⟩ := e
      by_cases h : k1 = k
      · simp only [mapDelete, if_pos h]
        exact ih.cons (k1, v1)
      · simp only [mapDelete, if_neg h]
        exact ih.cons₂ (k1, v1)

theorem keysNodup_mapDelete {κ α : Type} [DecidableEq κ] (m : List (κ × α)) (k : κ)
    (h : keysNodup m) : keysNodup (mapDelete m k) :=
  List.Nodup.sublist (List.Sublist.map Prod.fst (sublist_mapDelete m k)) h

/-! ## ChangeToPush and the merge table
(`src/webapp/src/lib/adapters/remoteStorage.ts`, `src/webapp/src/lib/adapters/model.ts`) -/

/-- Embedding of the `ChangeToPush` tagged union. -/
inductive ChangeToPush where
  | addSymptom (symptom : Symptom)
  | updateSymptom (symptom : Symptom)
  | deleteSymptom (id : String) (deletionDate : DateMs)
  | addMetric (metric : Metric)
  | updateMetric (metric : Metric)
  | deleteMetric (id : String) (deletionDate : DateMs)
  deriving DecidableEq, Repr

/-- Embedding of `getChangeId` (remoteStorage.ts). -/
def getChangeId (change : ChangeToPush) : String :=
  match change with
  | .addSymptom s => s.id
  | .updateSymptom s => s.id
  | .deleteSymptom id _ => id
  | .addMetric m => m.id
  | .updateMetric m => m.id
  | .deleteMetric id _ => id

/-- Embedding of `getChangeDate` (remoteStorage.ts): Add/Update carry
`entity.lastModified`, Delete carries `deletionDate`. -/
def getChangeDate (change : ChangeToPush) : DateMs :=
  match change with
  | .addSymptom s => s.lastModified
  | .updateSymptom s => s.lastModified
  | .deleteSymptom _ d => d
  | .addMetric m => m.lastModified
  | .updateMetric m => m.lastModified
  | .deleteMetric _ d => d

/-- Embedding of `ChangeKindCategory` (remoteStorage.ts). -/
inductive ChangeKindCategory where
  | add
  | update
  | delete
  deriving DecidableEq, Repr

/-- Embedding of `getChangeKindCategory` (remoteStorage.ts). -/
def getChangeKindCategory (change : ChangeToPush) : ChangeKindCategory :=
  match change with
  | .addSymptom _ => .add
  | .addMetric _ => .add
  | .updateSymptom _ => .update
  | .updateMetric _ => .update
  | .deleteSymptom _ _ => .delete
  | .deleteMetric _ _ => .delete

/-- Result of `mergeChanges` (remoteStorage.ts). `changesCancelEachOther`
embeds the `CHANGES_CANCEL_EACH_OTHER` sentinel; `throws` embeds the
`default: assertNever(...)` branch, which raises an exception
(the `exhaustive-match` module is absent from the sources; per the spec,
section 7, the unhandled-variant path is a panic-equivalent and in
particular returns no merged change); `illFormedSpread` embeds the
cross-entity-kind spread `{ ...latest, kind: earliest.kind }`, whose
result (an object whose tag and payload disagree) is not representable
as a `ChangeToPush`. -/
inductive MergeResult where
  | merged (change : ChangeToPush)
  | changesCancelEachOther
  | throws
  | illFormedSpread
  deriving DecidableEq, Repr

/-- The body of the `switch` in `mergeChanges`, applied to the
date-ordered pair `(earliest, latest)`. In the `add`/`update` row the
source keeps the latest payload and overrides `kind` with the earliest
(add) kind via `{ ...latest, kind: earliest.kind }`. -/
def mergeCore (earliest latest : ChangeToPush) : MergeResult :=
  match getChangeKindCategory earliest, getChangeKindCategory latest with
  | .add, .delete => .changesCancelEachOther
  | .add, .update =>
      (match earliest, latest with
       | .addSymptom _, .updateSymptom s => .merged (.addSymptom s)
       | .addMetric _, .updateMetric m => .merged (.addMetric m)
       | _, _ => .illFormedSpread)
  | .update, .delete => .merged latest
  | .update, .update => .merged latest
  | _, _ => .throws

/-- Embedding of `mergeChanges` (remoteStorage.ts): order the two
changes by wall-clock date (ties put `current` first, exactly as
`previousDate < currentDate ? [previous, current] : [current, previous]`)
and apply the merge table. -/
def mergeChanges (previous current : ChangeToPush) : MergeResult :=
  let previousDate := getChangeDate previous
  let currentDate := getChangeDate current
  if previousDate < currentDate then mergeCore previous current
  else mergeCore current previous

/-- The pending-change queue: a JavaScript `Map` keyed by entity id. -/
abbrev ChangeQueue := List (String × ChangeToPush)

/-- Embedding of `RemoteStorage.queueChange` (remoteStorage.ts).
Returns `none` when `mergeChanges` throws (or produces the
unrepresentable cross-kind spread), in which case the exception
propagates and the queue is not updated. -/
def queueChange (queue : ChangeQueue) (change : ChangeToPush) : Option ChangeQueue :=
  let id := getChangeId change
  match mapGet queue id with
  | none => some (mapSet queue id change)
  | some previous =>
      match mergeChanges previous change with
      | .changesCancelEachOther => some (mapDelete queue id)
      | .merged latest => some (mapSet queue id latest)
      | .throws => none
      | .illFormedSpread => none

/-- Two consecutive enqueues (exception-propagating). -/
def enqueueTwice (queue : ChangeQueue) (c1 c2 : ChangeToPush) : Option ChangeQueue :=
  (queueChange queue c1).bind (fun q => queueChange q c2)

/-! ## Pull anchor (`RemoteStorage.getLastPullDate`) -/

/-- Embedding of `PULL_OVERLAP_SECONDS` from `src/webapp/src/config.ts`
(re-exported through `src/webapp/src/lib/domain/model.ts`): the value is
the bare number `30`. -/
def PULL_OVERLAP_SECONDS : Int := 30

/-- Embedding of `RemoteStorage.getLastPullDate` (remoteStorage.ts):
`lastPulledAt` unset yields epoch `0`; otherwise the source computes
`date.getTime() - PULL_OVERLAP_SECONDS`, i.e. it subtracts the bare
constant `30` from the millisecond epoch value. -/
def getLastPullDate (lastPulledAt : Option DateMs) : DateMs :=
  match lastPulledAt with
  | none => 0
  | some t => t - PULL_OVERLAP_SECONDS

/-! ## The merge table, date-ordered -/

/-- The date-ordering step of `mergeChanges`:
`previousDate < currentDate ? [previous, current] : [current, previous]`. -/
def dateOrdered (previous current : ChangeToPush) : ChangeToPush × ChangeToPush :=
  if getChangeDate previous < getChangeDate current then (previous, current)
  else (current, previous)

theorem mergeChanges_eq_mergeCore (previous current : ChangeToPush) :
    mergeChanges previous current =
      mergeCore (dateOrdered previous current).1 (dateOrdered previous current).2 := by
  unfold mergeChanges dateOrdered
  by_cases h : getChangeDate previous < getChangeDate current <;> simp [h]

theorem mergeCore_add_delete (e l : ChangeToPush)
    (he : getChangeKindCategory e = .add) (hl : getChangeKindCategory l = .delete) :
    mergeCore e l = .changesCancelEachOther := by
  cases e <;> cases l <;> simp_all [mergeCore, getChangeKindCategory]

theorem mergeCore_update_update (e l : ChangeToPush)
    (he : getChangeKindCategory e = .update) (hl : getChangeKindCategory l = .update) :
    mergeCore e l = .merged l := by
  cases e <;> cases l <;> simp_all [mergeCore, getChangeKindCategory]

theorem mergeCore_update_delete (e l : ChangeToPush)
    (he : getChangeKindCategory e = .update) (hl : getChangeKindCategory l = .delete) :
    mergeCore e l = .merged l := by
  cases e <;> cases l <;> simp_all [mergeCore, getChangeKindCategory]

theorem mergeCore_delete_first (e l : ChangeToPush)
    (he : getChangeKindCategory e = .delete) : mergeCore e l = .throws := by
  cases e <;> cases l <;> simp_all [mergeCore, getChangeKindCategory]

/-- Both enqueues, unfolded: starting from a queue with no pending entry
for the entity, `enqueue c1; enqueue c2` dispatches on `mergeChanges c1 c2`. -/
theorem enqueueTwice_eq (q : ChangeQueue) (c1 c2 : ChangeToPush)
    (hfresh : mapGet q (getChangeId c1) = none)
    (hid : getChangeId c2 = getChangeId c1) :
    enqueueTwice q c1 c2 =
      match mergeChanges c1 c2 with
      | .changesCancelEachOther =>
          some (mapDelete (mapSet q (getChangeId c1) c1) (getChangeId c1))
      | .merged r => some (mapSet (mapSet q (getChangeId c1) c1) (getChangeId c1) r)
      | .throws => none
      | .illFormedSpread => none := by
  unfold enqueueTwice
  have h1 : queueChange q c1 = some (mapSet q (getChangeId c1) c1) := by
    simp only [queueChange, hfresh]
  rw [h1]
  show queueChange (mapSet q (getChangeId c1) c1) c2 = _
  simp only [queueChange, hid, mapGet_mapSet_self]

/-- C1. For every entity id and any two changes `c1`, `c2` enqueued for
that id (in either arrival order), the change queue afterwards holds
exactly the result of the merge table of section 4.4, where the two
changes are ordered by wall-clock date into `earliest` and `latest`:
Add then Delete leaves no entry for the id; Add then Update leaves the
latest payload still tagged as an Add; Update then Update and Update
then Delete leave the latest; the rest of the queue is untouched and
the queue keeps at most one entry per entity id. -/
theorem c1_enqueue_merge_table (q : ChangeQueue) (c1 c2 : ChangeToPush)
    (hnodup : keysNodup q)
    (hfresh : mapGet q (getChangeId c1) = none)
    (hid : getChangeId c2 = getChangeId c1) :
    (getChangeKindCategory (dateOrdered c1 c2).1 = .add ∧
       getChangeKindCategory (dateOrdered c1 c2).2 = .delete →
       ∃ q2, enqueueTwice q c1 c2 = some q2 ∧ keysNodup q2 ∧
         mapGet q2 (getChangeId c1) = none ∧
         ∀ k, k ≠ getChangeId c1 → mapGet q2 k = mapGet q k) ∧
    (∀ se su, (dateOrdered c1 c2).1 = .addSymptom se →
       (dateOrdered c1 c2).2 = .updateSymptom su →
       ∃ q2, enqueueTwice q c1 c2 = some q2 ∧ keysNodup q2 ∧
         mapGet q2 (getChangeId c1) = some (.addSymptom su) ∧
         ∀ k, k ≠ getChangeId c1 → mapGet q2 k = mapGet q k) ∧
    (∀ me mu, (dateOrdered c1 c2).1 = .addMetric me →
       (dateOrdered c1 c2).2 = .updateMetric mu →
       ∃ q2, enqueueTwice q c1 c2 = some q2 ∧ keysNodup q2 ∧
         mapGet q2 (getChangeId c1) = some (.addMetric mu) ∧
         ∀ k, k ≠ getChangeId c1 → mapGet q2 k = mapGet q k) ∧
    (getChangeKindCategory (dateOrdered c1 c2).1 = .update ∧
       getChangeKindCategory (dateOrdered c1 c2).2 = .update →
       ∃ q2, enqueueTwice q c1 c2 = some q2 ∧ keysNodup q2 ∧
         mapGet q2 (getChangeId c1) = some (dateOrdered c1 c2).2 ∧
         ∀ k, k ≠ getChangeId c1 → mapGet q2 k = mapGet q k) ∧
    (getChangeKindCategory (dateOrdered c1 c2).1 = .update ∧
       getChangeKindCategory (dateOrdered c1 c2).2 = .delete →
       ∃ q2, enqueueTwice q c1 c2 = some q2 ∧ keysNodup q2 ∧
         mapGet q2 (getChangeId c1) = some (dateOrdered c1 c2).2 ∧
         ∀ k, k ≠ getChangeId c1 → mapGet q2 k = mapGet q k) := by
  have hmerge := mergeChanges_eq_mergeCore c1 c2
  have hstep := enqueueTwice_eq q c1 c2 hfresh hid
  have hnodup1 : keysNodup (mapSet q (getChangeId c1) c1) :=
    keysNodup_mapSet q (getChangeId c1) c1 hnodup
  refine ⟨?_, ?_, ?_, ?_, ?_⟩
  · rintro ⟨he, hl⟩
    rw [mergeCore_add_delete _ _ he hl] at hmerge
    rw [hmerge] at hstep
    refine ⟨_, hstep, keysNodup_mapDelete _ _ hnodup1, mapGet_mapDelete_self _ _, ?_⟩
    intro k hk
    rw [mapGet_mapDelete_ne _ _ _ hk, mapGet_mapSet_ne _ _ _ _ hk]
  · intro se su he hl
    rw [he, hl] at hmerge
    rw [show mergeCore (.addSymptom se) (.updateSymptom su)
          = .merged (.addSymptom su) from rfl] at hmerge
    rw [hmerge] at hstep
    refine ⟨_, hstep, keysNodup_mapSet _ _ _ hnodup1, mapGet_mapSet_self _ _ _, ?_⟩
    intro k hk
    rw [mapGet_mapSet_ne _ _ _ _ hk, mapGet_mapSet_ne _ _ _ _ hk]
  · intro me mu he hl
    rw [he, hl] at hmerge
    rw [show mergeCore (.addMetric me) (.updateMetric mu)
          = .merged (.addMetric mu) from rfl] at hmerge
    rw [hmerge] at hstep
    refine ⟨_, hstep, keysNodup_mapSet _ _ _ hnodup1, mapGet_mapSet_self _ _ _, ?_⟩
    intro k hk
    rw [mapGet_mapSet_ne _ _ _ _ hk, mapGet_mapSet_ne _ _ _ _ hk]
  · rintro ⟨he, hl⟩
    rw [mergeCore_update_update _ _ he hl] at hmerge
    rw [hmerge] at hstep
    refine ⟨_, hstep, keysNodup_mapSet _ _ _ hnodup1, mapGet_mapSet_self _ _ _, ?_⟩
    intro k hk
    rw [mapGet_mapSet_ne _ _ _ _ hk, mapGet_mapSet_ne _ _ _ _ hk]
  · rintro ⟨he, hl⟩
    rw [mergeCore_update_delete _ _ he hl] at hmerge
    rw [hmerge] at hstep
    refine ⟨_, hstep, keysNodup_mapSet _ _ _ hnodup1, mapGet_mapSet_self _ _ _, ?_⟩
    intro k hk
    rw [mapGet_mapSet_ne _ _ _ _ hk, mapGet_mapSet_ne _ _ _ _ hk]

/-- Witness for `c1_enqueue_merge_table` at a concrete Add-then-Update
pair: the queue ends with the update payload tagged as an Add. -/
theorem c1_enqueue_merge_table_witness :
    ∃ q2, enqueueTwice []
        (.addSymptom ⟨"sym_a", "a", [], 1⟩)
        (.updateSymptom ⟨"sym_a", "b", [], 2⟩) = some q2 ∧ keysNodup q2 ∧
      mapGet q2 (getChangeId (.addSymptom ⟨"sym_a", "a", [], 1⟩))
        = some (.addSymptom ⟨"sym_a", "b", [], 2⟩) ∧
      ∀ k, k ≠ getChangeId (.addSymptom ⟨"sym_a", "a", [], 1⟩) →
        mapGet q2 k = mapGet ([] : ChangeQueue) k := by
  have h := c1_enqueue_merge_table []
      (.addSymptom ⟨"sym_a", "a", [], 1⟩)
      (.updateSymptom ⟨"sym_a", "b", [], 2⟩)
      (by simp [keysNodup]) rfl rfl
  exact h.2.1 ⟨"sym_a", "a", [], 1⟩ ⟨"sym_a", "b", [], 2⟩ (by decide) (by decide)

/-- C2. The source `getLastPullDate` subtracts the bare constant
`PULL_OVERLAP_SECONDS = 30` from the millisecond epoch of
`lastPulledAt`, so the since-anchor is 30 milliseconds (not the
specified 30000 milliseconds) earlier; the unset case does return
epoch 0. Evaluation at the failing input `lastPulledAt = 100000`. -/
theorem c2_pull_anchor_subtracts_30_ms :
    getLastPullDate (some 100000) = 99970 ∧
    getLastPullDate (some 100000) ≠ 100000 - 30000 ∧
    getLastPullDate none = 0 := by
  refine ⟨rfl, ?_, rfl⟩
  decide

/-- C6 counterexample: for a Delete (date 1) followed by an Add (date 2)
of the same id, `mergeChanges` does not return the latest change — it
reaches the exhaustiveness panic. -/
theorem c6_delete_first_counterexample :
    mergeChanges (.deleteSymptom "sym_a" 1) (.addSymptom ⟨"sym_a", "x", [], 2⟩)
        = .throws ∧
    mergeChanges (.deleteSymptom "sym_a" 1) (.addSymptom ⟨"sym_a", "x", [], 2⟩)
        ≠ .merged (.addSymptom ⟨"sym_a", "x", [], 2⟩) := by
  refine ⟨?_, ?_⟩ <;> decide

/-- C6 (amended). Whenever the earliest-by-date of the two changes is a
Delete, `mergeChanges` hits the `default: assertNever` branch and
throws instead of returning the latest change. -/
theorem c6_delete_first_throws (c1 c2 : ChangeToPush)
    (h : getChangeKindCategory (dateOrdered c1 c2).1 = .delete) :
    mergeChanges c1 c2 = .throws := by
  rw [mergeChanges_eq_mergeCore]
  exact mergeCore_delete_first _ _ h

/-- Witness for `c6_delete_first_throws` at the concrete pair of the
counterexample. -/
theorem c6_delete_first_throws_witness :
    mergeChanges (.deleteMetric "met_a" 5)
        (.updateMetric ⟨"met_a", "sym_a", .low, 9, [], 9⟩) = .throws :=
  c6_delete_first_throws _ _ (by decide)

/-! ## Pull reconciliation against the queue
(`RemoteStorage.comparePulledDataWithQueuedToPushData`) -/

/-- The payload of a pull: symptoms and metrics fetched from the API. -/
structure PulledData where
  symptoms : List Symptom
  metrics : List Metric
  deriving DecidableEq, Repr

/-- The symptom loop of `comparePulledDataWithQueuedToPushData`: a pulled
symptom with no queued change is skipped (`continue`) without being
accumulated; a pulled symptom strictly older than the queued change is
skipped; otherwise it is accumulated and the queued change deleted. -/
def comparePulledSymptomsLoop (queue : ChangeQueue) (acc : List Symptom) :
    List Symptom → ChangeQueue × List Symptom
  | [] => (queue, acc)
  | s :: rest =>
      match mapGet queue s.id with
      | none => comparePulledSymptomsLoop queue acc rest
      | some changeToPush =>
          if s.lastModified < getChangeDate changeToPush then
            comparePulledSymptomsLoop queue acc rest
          else
            comparePulledSymptomsLoop (mapDelete queue s.id) (acc ++ [s]) rest

/-- The metric loop of `comparePulledDataWithQueuedToPushData`, identical
in structure to the symptom loop. -/
def comparePulledMetricsLoop (queue : ChangeQueue) (acc : List Metric) :
    List Metric → ChangeQueue × List Metric
  | [] => (queue, acc)
  | m :: rest =>
      match mapGet queue m.id with
      | none => comparePulledMetricsLoop queue acc rest
      | some changeToPush =>
          if m.lastModified < getChangeDate changeToPush then
            comparePulledMetricsLoop queue acc rest
          else
            comparePulledMetricsLoop (mapDelete queue m.id) (acc ++ [m]) rest

/-- Embedding of `RemoteStorage.comparePulledDataWithQueuedToPushData`
(remoteStorage.ts): with an empty queue everything passes through;
otherwise both loops run, the metric loop on the queue left by the
symptom loop, and the accumulated lists are returned. -/
def comparePulledDataWithQueuedToPushData (queue : ChangeQueue)
    (pulled : PulledData) : ChangeQueue × PulledData :=
  if queue.isEmpty then (queue, pulled)
  else
    let rs := comparePulledSymptomsLoop queue [] pulled.symptoms
    let rm := comparePulledMetricsLoop rs.1 [] pulled.metrics
    (rm.1, ⟨rs.2, rm.2⟩)

/-- C3. Failing input: the queue holds one change for `sym_x`, and a
pulled symptom `sym_y` has no queued change. The source loop hits
`continue` without accumulating the symptom, so `sym_y` is dropped
instead of passing through to domain reconciliation; the newer/older
comparison branches themselves do match the claim. -/
theorem c3_unqueued_pulled_entity_dropped :
    comparePulledDataWithQueuedToPushData
        [("sym_x", .updateSymptom ⟨"sym_x", "x", [], 5⟩)]
        ⟨[⟨"sym_y", "y", [], 7⟩], []⟩
      = ([("sym_x", .updateSymptom ⟨"sym_x", "x", [], 5⟩)], ⟨[], []⟩) ∧
    (⟨[], []⟩ : PulledData) ≠ ⟨[⟨"sym_y", "y", [], 7⟩], []⟩ := by
  refine ⟨?_, ?_⟩ <;> decide

/-! ## The MetricManager of `src/webapp/src/lib/domain/metrics.ts` -/

/-- JavaScript `Set.add`: append if not already present. -/
def setAdd {α : Type} [DecidableEq α] (s : List α) (x : α) : List α :=
  if x ∈ s then s else s ++ [x]

/-- The day-bucket index: `Map<Milliseconds, Set<MetricId>>`. -/
abbrev DayIndex := List (Int × List String)

/-- State of the `MetricManager` in `src/webapp/src/lib/domain/metrics.ts`. -/
structure MetricManagerState where
  metrics : List (String × Metric)
  metricsByDate : DayIndex
  deriving DecidableEq, Repr

/-- Embedding of `MetricManager.addMetricToDateIndex`; `day` embeds
`getMetricDate`, i.e. `datetimeToMs(getDay(metric.date))`. -/
def addMetricToDateIndex (day : DateMs → Int) (index : DayIndex) (metric : Metric) :
    DayIndex :=
  let d := day metric.date
  let metricsInSameDay := (mapGet index d).getD []
  mapSet index d (setAdd metricsInSameDay metric.id)

/-- Embedding of `MetricManager.removeMetricFromDateIndex`: the source
casts `this.metricsByDate.get(day)` to `Set` without a check, so a
missing bucket raises a `TypeError` (`none` here). -/
def removeMetricFromDateIndex (day : DateMs → Int) (index : DayIndex)
    (metric : Metric) : Option DayIndex :=
  let d := day metric.date
  match mapGet index d with
  | none => none
  | some metricsInSameDay =>
      some (mapSet index d (metricsInSameDay.erase metric.id))

/-- Embedding of `MetricManager.initialize` (webapp copy), started from a
fresh manager: every metric is stored and indexed. -/
def initializeMetricManager (day : DateMs → Int) (metrics : List Metric) :
    MetricManagerState :=
  metrics.foldl
    (fun st metric =>
      { st with
          metrics := mapSet st.metrics metric.id metric
          metricsByDate := addMetricToDateIndex day st.metricsByDate metric })
    ⟨[], []⟩

/-- Embedding of `MetricManager.add` (webapp copy): the new metric is
built from the generated id, the arguments and `now()`, and stored —
the source never calls `addMetricToDateIndex` here. -/
def metricManagerAdd (st : MetricManagerState) (id symptomId : String)
    (date : DateMs) (intensity : Intensity) (notes : List Char) (tNow : DateMs) :
    MetricManagerState :=
  let metric : Metric := ⟨id, symptomId, intensity, date, notes, tNow⟩
  { st with metrics := mapSet st.metrics id metric }

/-- Embedding of `MetricManager.update` (webapp copy): fails (state
untouched) when the id is absent; otherwise removes the previous metric
from the index (which throws, `none`, when its bucket is missing),
stores the new metric and indexes it. -/
def metricManagerUpdate (day : DateMs → Int) (st : MetricManagerState)
    (metric : Metric) : Option MetricManagerState :=
  match mapGet st.metrics metric.id with
  | none => some st
  | some previous =>
      match removeMetricFromDateIndex day st.metricsByDate previous with
      | none => none
      | some cleaned =>
          some { st with
                   metrics := mapSet st.metrics metric.id metric
                   metricsByDate := addMetricToDateIndex day cleaned metric }

/-- Embedding of `MetricManager.delete` (webapp copy): a no-op on a
missing id; otherwise only the metric map is touched — the source never
calls `removeMetricFromDateIndex` here. -/
def metricManagerDelete (st : MetricManagerState) (id : String) :
    MetricManagerState :=
  match mapGet st.metrics id with
  | none => st
  | some _ => { st with metrics := mapDelete st.metrics id }

/-- C7. Failing inputs for the day-bucket invariant, for every day
function: (a) `initialize []` then `add` stores the metric but leaves
the index empty, so no bucket contains the fresh id; (b) `initialize`
with one metric then `delete` leaves the id in its bucket although the
metric is gone from the store. -/
theorem c7_day_bucket_index_out_of_sync (day : DateMs → Int) :
    (let st := metricManagerAdd (initializeMetricManager day [])
        "met_1" "sym_a" 10 .low [] 20
     mapGet st.metrics "met_1" = some ⟨"met_1", "sym_a", .low, 10, [], 20⟩ ∧
       st.metricsByDate = []) ∧
    (let st := metricManagerDelete
        (initializeMetricManager day [⟨"met_1", "sym_a", .low, 10, [], 20⟩]) "met_1"
     mapGet st.metrics "met_1" = none ∧
       st.metricsByDate = [(day 10, ["met_1"])]) := by
  refine ⟨⟨?_, rfl⟩, ⟨?_, rfl⟩⟩ <;> rfl

/-! ## Words, sets, and the autocompleters -/

/-- JavaScript `toLowerCase`, on the ASCII fragment used by the claims. -/
def jsToLower (s : String) : String :=
  String.mk (s.data.map Char.toLower)

/-- Prefix test on the underlying character lists (the embedding of
`String.prototype.startsWith`-style matching used by the word index). -/
def strIsPrefixOf (p w : String) : Bool :=
  p.data.isPrefixOf w.data

/-- Split on each single space character, keeping empty fragments,
exactly as JavaScript `s.split(" ")`. -/
def splitOnSpaceAux (cs : List Char) (acc : List Char) : List String :=
  match cs with
  | [] => [String.mk acc.reverse]
  | c :: rest =>
      if c = ' ' then String.mk acc.reverse :: splitOnSpaceAux rest []
      else splitOnSpaceAux rest (c :: acc)

/-- JavaScript `s.split(" ")`. -/
def jsSplitOnSpace (s : String) : List String :=
  splitOnSpaceAux s.data []

/-- JavaScript `parts.join(" ")`. -/
def joinSpace (l : List String) : String :=
  String.mk ((l.map String.data).intersperse [' ']).flatten

/-- First-occurrence deduplication, the iteration order of a JavaScript
`Set` built by repeated `add`. -/
def dedupFirst {α : Type} [DecidableEq α] (l : List α) : List α :=
  l.foldl setAdd []

/-- Embedding of `symptomToWords` (`src/webapp/src/lib/domain/symptoms.ts`):
name and other names, empty ones dropped, lowercased, split on a single
space, flattened, collected into a `Set`. -/
def symptomToWords (s : Symptom) : List String :=
  dedupFirst
    ((((s.name :: s.otherNames).filter (fun n => n ≠ "")).map jsToLower).map
      jsSplitOnSpace).flatten

/-- Query tokenization: split on a single space and drop empty tokens, as
in `SymptomManager.searchByPrefix` and `filterSymptoms`. -/
def tokenizeQuery (q : String) : List String :=
  (jsSplitOnSpace q).filter (fun t => t ≠ "")

/-- Modelled from the spec: the `AutocompleterV2` implementation
(`src/webapp/src/autocomplete.ts`, with `buildTrie`, `findWords`,
`addWordsToTrie`) is absent from the sources — only its tests and its
callers are present. Following section 4.1 and the pinned tests, its
observable search contract is: tokenize the query on whitespace; for
each token take the items having some indexed word with the lowercased
token as prefix; intersect across tokens (AND); empty query gives the
empty result; `addItem`/`removeItem` maintain the indexed item set. The
index state is embedded as the list of indexed items. -/
def autocompleterV2Search (auto : List Symptom) (query : String) : List Symptom :=
  let tokens := tokenizeQuery query
  if tokens = [] then []
  else
    auto.filter (fun item =>
      tokens.all (fun t =>
        (symptomToWords item).any (fun w => strIsPrefixOf (jsToLower t) w)))

/-- Modelled from the spec: trie word lookup `findWords(trie, p)`
(`src/webapp/src/autocomplete.ts`, absent from the sources) returns
exactly the indexed words having `p` as a prefix, per section 4.1 and
the `TrieNode` tests. -/
def findWords (words : List String) (p : String) : List String :=
  words.filter (fun w => strIsPrefixOf p w)

/-- The word index built by the `ItemAutocompleter` constructor
(`src/unnamed/part_006`): all words of all items, first occurrence kept. -/
def itemWords (items : List Symptom) : List String :=
  dedupFirst (items.flatMap symptomToWords)

/-- The `word → items` map of `ItemAutocompleter.symptomsToWords`: the
items (in order) having the word among their words. -/
def wordToItems (items : List Symptom) (w : String) : List Symptom :=
  items.filter (fun it => w ∈ symptomToWords it)

/-- Embedding of `ItemAutocompleter.searchSinglePrefix` +
`getSymptomFromWords` (`src/unnamed/part_006`): find the indexed words
with the lowercased prefix, then collect their items into a `Set`. -/
def searchSinglePrefix (items : List Symptom) (p : String) : List Symptom :=
  dedupFirst ((findWords (itemWords items) (jsToLower p)).flatMap (wordToItems items))

/-- Embedding of `ItemAutocompleter.search` (`src/unnamed/part_006`;
`SymptomAutocompleter.search` in `src/unnamed/part_008` is identical):
the per-prefix result sets are flattened into one result `Set` — a
union across prefixes. -/
def itemAutocompleterSearch (items : List Symptom) (prefixes : List String) :
    List Symptom :=
  dedupFirst (prefixes.flatMap (searchSinglePrefix items))

/-! ## SymptomManager (`src/webapp/src/lib/domain/symptoms.ts`) -/

/-- State of `SymptomManager`: the id-keyed symptom map and the
autocompleter's indexed items. -/
structure SymptomManagerState where
  symptoms : List (String × Symptom)
  auto : List Symptom
  deriving DecidableEq, Repr

/-- Embedding of `SymptomChange` (symptoms.ts). -/
inductive SymptomChange where
  | smInitialized
  | smAdded (id : String)
  | smUpdated (id : String)
  | smDeleted (id : String)
  | smAddedFromExternalSource
  deriving DecidableEq, Repr

/-- Embedding of `SymptomManager.get`. -/
def symptomManagerGet (st : SymptomManagerState) (id : String) : Option Symptom :=
  mapGet st.symptoms id

/-- The comparator `sortSymptomsAlphabetically` (symptoms.ts) as the
ordering of a stable sort: by lowercased name, ties preserving order
(`SortAction.PRESERVE_ORDER`). -/
def symptomLeByName (a b : Symptom) : Bool :=
  decide (jsToLower a.name ≤ jsToLower b.name)

/-- Embedding of `SymptomManager.getAll`: the map values sorted
alphabetically. -/
def symptomManagerGetAll (st : SymptomManagerState) : List Symptom :=
  (st.symptoms.map Prod.snd).mergeSort symptomLeByName

/-- Embedding of `SymptomManager.add` (id generation and `now()`
injected): stores the symptom and indexes it in the autocompleter. -/
def symptomManagerAdd (st : SymptomManagerState) (id name : String)
    (otherNames : List String) (tNow : DateMs) :
    SymptomManagerState × SymptomChange :=
  let s : Symptom := ⟨id, name, otherNames, tNow⟩
  (⟨mapSet st.symptoms id s, st.auto ++ [s]⟩, .smAdded id)

/-- Embedding of `SymptomManager.update`: a typed failure (no event,
state untouched) when the id is absent; otherwise stores the update and
replaces the previous item in the autocompleter index. -/
def symptomManagerUpdate (st : SymptomManagerState) (updated : Symptom) :
    SymptomManagerState × Option SymptomChange :=
  match mapGet st.symptoms updated.id with
  | none => (st, none)
  | some previous =>
      (⟨mapSet st.symptoms updated.id updated, (st.auto.erase previous) ++ [updated]⟩,
       some (.smUpdated updated.id))

/-- Embedding of `SymptomManager.delete`: a no-op on a missing id;
otherwise removes the symptom from index and map. -/
def symptomManagerDelete (st : SymptomManagerState) (id : String) :
    SymptomManagerState × Option SymptomChange :=
  match mapGet st.symptoms id with
  | none => (st, none)
  | some previous =>
      (⟨mapDelete st.symptoms id, st.auto.erase previous⟩, some (.smDeleted id))

/-- Embedding of `SymptomManager.addPulledData`: each pulled symptom is
set in the id-keyed map; the autocompleter is not touched; the emitted
event is `SymptomsAddedFromExternalSource`. -/
def symptomManagerAddPulledData (st : SymptomManagerState)
    (symptoms : List Symptom) : SymptomManagerState × SymptomChange :=
  ({ st with
       symptoms := symptoms.foldl (fun acc s => mapSet acc s.id s) st.symptoms },
   .smAddedFromExternalSource)

/-- Embedding of `SymptomManager.searchByPrefix`: empty token list
returns `getAll()`; otherwise the autocompleter searches the re-joined
tokens and the result is sorted alphabetically. -/
def searchByPrefixFn (st : SymptomManagerState) (query : String) : List Symptom :=
  let prefixes := tokenizeQuery query
  if prefixes = [] then symptomManagerGetAll st
  else
    (autocompleterV2Search st.auto (joinSpace prefixes)).mergeSort
      symptomLeByName

/-! ## MetricManager events and pulled data (metrics.ts) -/

/-- Embedding of `MetricChange` (metrics.ts). -/
inductive MetricChange where
  | mInitialized
  | mAdded (id : String)
  | mUpdated (id : String)
  | mDeleted (id : String)
  | mAddedFromExternalSource
  deriving DecidableEq, Repr

/-- The comparator `sortMetricsByDate` (metrics.ts) as the ordering of a
stable sort: by date, newest first, ties preserving order. -/
def metricLeByDate (a b : Metric) : Bool :=
  decide (b.date ≤ a.date)

/-- Embedding of `MetricManager.getAll`. -/
def metricManagerGetAll (st : MetricManagerState) : List Metric :=
  (st.metrics.map Prod.snd).mergeSort metricLeByDate

/-- Embedding of `MetricManager.addPulledData`: each pulled metric is
set in the id-keyed map (the day index is not touched) and the emitted
event is `MetricsAddedFromExternalSource`. -/
def metricManagerAddPulledData (st : MetricManagerState)
    (metrics : List Metric) : MetricManagerState × MetricChange :=
  ({ st with
       metrics := metrics.foldl (fun acc m => mapSet acc m.id m) st.metrics },
   .mAddedFromExternalSource)

/-! ## The coordinator (`App` in `src/unnamed/part_002`) -/

/-- The coordinated state: domain stores, the SyncEngine change queue
and the persisted snapshots in browser storage. -/
structure AppState where
  symptomStore : SymptomManagerState
  metricStore : MetricManagerState
  queue : ChangeQueue
  storedSymptoms : List Symptom
  storedMetrics : List Metric
  deriving Repr

/-- Embedding of `BrowserStorage.saveAllSymptoms` as seen from the
coordinator: persist the full symptom snapshot. -/
def saveAllSymptoms (app : AppState) : AppState :=
  { app with storedSymptoms := symptomManagerGetAll app.symptomStore }

/-- Embedding of `BrowserStorage.saveAllMetrics`: persist the full
metric snapshot. -/
def saveAllMetrics (app : AppState) : AppState :=
  { app with storedMetrics := metricManagerGetAll app.metricStore }

/-- Embedding of `App.handleSymptomChanges` (`src/unnamed/part_002`):
external-source events persist only; Added/Updated enqueue the symptom
(throwing, `none`, when the id is unexpectedly absent); Deleted
enqueues a delete stamped `new Date()` (injected `tNow`). -/
def handleSymptomChange (tNow : DateMs) (app : AppState) :
    SymptomChange → Option AppState
  | .smInitialized => some app
  | .smAddedFromExternalSource => some (saveAllSymptoms app)
  | .smAdded id =>
      let app1 := saveAllSymptoms app
      match symptomManagerGet app1.symptomStore id with
      | none => none
      | some s =>
          (queueChange app1.queue (.addSymptom s)).map
            (fun q => { app1 with queue := q })
  | .smUpdated id =>
      let app1 := saveAllSymptoms app
      match symptomManagerGet app1.symptomStore id with
      | none => none
      | some s =>
          (queueChange app1.queue (.updateSymptom s)).map
            (fun q => { app1 with queue := q })
  | .smDeleted id =>
      let app1 := saveAllSymptoms app
      (queueChange app1.queue (.deleteSymptom id tNow)).map
        (fun q => { app1 with queue := q })

/-- Embedding of `App.handleMetricChanges` (`src/unnamed/part_002`). -/
def handleMetricChange (tNow : DateMs) (app : AppState) :
    MetricChange → Option AppState
  | .mInitialized => some app
  | .mAddedFromExternalSource => some (saveAllMetrics app)
  | .mAdded id =>
      let app1 := saveAllMetrics app
      match mapGet app1.metricStore.metrics id with
      | none => none
      | some m =>
          (queueChange app1.queue (.addMetric m)).map
            (fun q => { app1 with queue := q })
  | .mUpdated id =>
      let app1 := saveAllMetrics app
      match mapGet app1.metricStore.metrics id with
      | none => none
      | some m =>
          (queueChange app1.queue (.updateMetric m)).map
            (fun q => { app1 with queue := q })
  | .mDeleted id =>
      let app1 := saveAllMetrics app
      (queueChange app1.queue (.deleteMetric id tNow)).map
        (fun q => { app1 with queue := q })

/-- One batch of pulled data delivered through `addPulledData` on either
store. -/
inductive PulledDelivery where
  | symptomsD (symptoms : List Symptom)
  | metricsD (metrics : List Metric)

/-- Delivering one batch: the store ingests the pulled data, emits its
change event, and the coordinator handles it. -/
def deliverPulled (tNow : DateMs) (app : AppState) :
    PulledDelivery → Option AppState
  | .symptomsD l =>
      let r := symptomManagerAddPulledData app.symptomStore l
      handleSymptomChange tNow { app with symptomStore := r.1 } r.2
  | .metricsD l =>
      let r := metricManagerAddPulledData app.metricStore l
      handleMetricChange tNow { app with metricStore := r.1 } r.2

/-- A sequence of pulled-data deliveries, exceptions propagating. -/
def runDeliveries (tNow : DateMs) (app : AppState) :
    List PulledDelivery → Option AppState
  | [] => some app
  | d :: ds => (deliverPulled tNow app d).bind (fun app2 => runDeliveries tNow app2 ds)

/-! ## Set and map membership lemmas -/

theorem mem_setAdd {α : Type} [DecidableEq α] (s : List α) (x y : α) :
    y ∈ setAdd s x ↔ y ∈ s ∨ y = x := by
  unfold setAdd
  by_cases h : x ∈ s
  · rw [if_pos h]
    constructor
    · exact Or.inl
    · rintro (hy | rfl)
      · exact hy
      · exact h
  · rw [if_neg h]
    simp [List.mem_append]

theorem mem_foldl_setAdd {α : Type} [DecidableEq α] (l : List α) :
    ∀ (acc : List α) (y : α), y ∈ l.foldl setAdd acc ↔ y ∈ acc ∨ y ∈ l := by
  induction l with
  | nil => simp
  | cons x rest ih =>
      intro acc y
      simp only [List.foldl_cons, ih, mem_setAdd, List.mem_cons]
      tauto

theorem mem_dedupFirst {α : Type} [DecidableEq α] (l : List α) (y : α) :
    y ∈ dedupFirst l ↔ y ∈ l := by
  unfold dedupFirst
  rw [mem_foldl_setAdd]
  simp

theorem mapGet_mem {κ α : Type} [DecidableEq κ] (m : List (κ × α)) (k : κ) (v : α)
    (h : mapGet m k = some v) : (k, v) ∈ m := by
  induction m with
  | nil => simp [mapGet] at h
  | cons e rest ih =>
      obtain ⟨k1, v1⟩ := e
      simp only [mapGet] at h
      by_cases h1 : k1 = k
      · rw [if_pos h1] at h
        injection h with hv
        subst h1
        subst hv
        exact List.mem_cons_self _ _
      · rw [if_neg h1] at h
        exact List.mem_cons_of_mem _ (ih h)

theorem mapGet_foldl_symptoms_not_mem (ps : List Symptom) :
    ∀ (m : List (String × Symptom)) (k : String), k ∉ ps.map Symptom.id →
      mapGet (ps.foldl (fun acc s => mapSet acc s.id s) m) k = mapGet m k := by
  induction ps with
  | nil => intro m k _; rfl
  | cons x rest ih =>
      intro m k hk
      simp only [List.map_cons, List.mem_cons] at hk
      push_neg at hk
      simp only [List.foldl_cons]
      rw [ih _ _ hk.2, mapGet_mapSet_ne _ _ _ _ hk.1]

theorem mapGet_foldl_symptoms_self (ps : List Symptom) :
    ∀ (m : List (String × Symptom)), (ps.map Symptom.id).Nodup → ∀ s ∈ ps,
      mapGet (ps.foldl (fun acc x => mapSet acc x.id x) m) s.id = some s := by
  induction ps with
  | nil =>
      intro m _ s hs
      cases hs
  | cons x rest ih =>
      intro m hnodup s hs
      simp only [List.map_cons, List.nodup_cons] at hnodup
      simp only [List.foldl_cons]
      rcases List.mem_cons.mp hs with rfl | hs2
      · rw [mapGet_foldl_symptoms_not_mem rest _ _ hnodup.1, mapGet_mapSet_self]
      · exact ih _ hnodup.2 s hs2

/-- Membership characterization of the modelled `AutocompleterV2.search`:
an item is in the result iff the query has at least one token, the item
is indexed, and every lowercased token is a prefix of some word of the
item — the intersection (AND) semantics. -/
theorem mem_autocompleterV2Search (auto : List Symptom) (q : String) (s : Symptom) :
    s ∈ autocompleterV2Search auto q ↔
      (tokenizeQuery q ≠ [] ∧ s ∈ auto ∧
        ∀ t ∈ tokenizeQuery q, ∃ w ∈ symptomToWords s,
          strIsPrefixOf (jsToLower t) w = true) := by
  simp only [autocompleterV2Search]
  by_cases hq : tokenizeQuery q = []
  · simp [hq]
  · rw [if_neg hq]
    simp only [List.mem_filter, List.all_eq_true, List.any_eq_true]
    constructor
    · rintro ⟨h1, h2⟩
      exact ⟨hq, h1, h2⟩
    · rintro ⟨_, h1, h2⟩
      exact ⟨h1, h2⟩

theorem mem_wordToItems (items : List Symptom) (w : String) (s : Symptom) :
    s ∈ wordToItems items w ↔ s ∈ items ∧ w ∈ symptomToWords s := by
  simp [wordToItems]

theorem mem_itemWords (items : List Symptom) (w : String) :
    w ∈ itemWords items ↔ ∃ s ∈ items, w ∈ symptomToWords s := by
  simp [itemWords, mem_dedupFirst, List.mem_flatMap]

/-- Membership characterization of the legacy
`ItemAutocompleter.searchSinglePrefix`. -/
theorem mem_searchSinglePrefix (items : List Symptom) (p : String) (s : Symptom) :
    s ∈ searchSinglePrefix items p ↔
      (s ∈ items ∧ ∃ w ∈ symptomToWords s, strIsPrefixOf (jsToLower p) w = true) := by
  simp only [searchSinglePrefix, mem_dedupFirst, List.mem_flatMap, findWords,
    List.mem_filter, mem_wordToItems, mem_itemWords]
  constructor
  · rintro ⟨w, ⟨⟨s2, hs2, hw2⟩, hpfx⟩, hs, hw⟩
    exact ⟨hs, w, hw, hpfx⟩
  · rintro ⟨hs, w, hw, hpfx⟩
    exact ⟨w, ⟨⟨s, hs, hw⟩, hpfx⟩, hs, hw⟩

/-- C4. For any sequence of pulled symptom/metric batches delivered
through `addPulledData` on the stores: the stores emit only the
`AddedFromExternalSource` events, every delivery succeeds through the
coordinator (which persists snapshots and enqueues nothing), and the
SyncEngine change queue afterwards is exactly the queue before. -/
theorem c4_pulled_data_does_not_enter_queue (tNow : DateMs) (app : AppState)
    (ds : List PulledDelivery) :
    (∀ st l, (symptomManagerAddPulledData st l).2 = .smAddedFromExternalSource) ∧
    (∀ st l, (metricManagerAddPulledData st l).2 = .mAddedFromExternalSource) ∧
    ∃ app2, runDeliveries tNow app ds = some app2 ∧ app2.queue = app.queue := by
  refine ⟨fun _ _ => rfl, fun _ _ => rfl, ?_⟩
  induction ds generalizing app with
  | nil => exact ⟨app, rfl, rfl⟩
  | cons d ds ih =>
      cases d with
      | symptomsD l =>
          obtain ⟨app2, h1, h2⟩ := ih (saveAllSymptoms
            { app with symptomStore := (symptomManagerAddPulledData app.symptomStore l).1 })
          refine ⟨app2, ?_, ?_⟩
          · show (deliverPulled tNow app (.symptomsD l)).bind
                (fun a => runDeliveries tNow a ds) = some app2
            rw [show deliverPulled tNow app (.symptomsD l)
                  = some (saveAllSymptoms { app with
                      symptomStore := (symptomManagerAddPulledData app.symptomStore l).1 })
                from rfl]
            exact h1
          · rw [h2]
            rfl
      | metricsD l =>
          obtain ⟨app2, h1, h2⟩ := ih (saveAllMetrics
            { app with metricStore := (metricManagerAddPulledData app.metricStore l).1 })
          refine ⟨app2, ?_, ?_⟩
          · show (deliverPulled tNow app (.metricsD l)).bind
                (fun a => runDeliveries tNow a ds) = some app2
            rw [show deliverPulled tNow app (.metricsD l)
                  = some (saveAllMetrics { app with
                      metricStore := (metricManagerAddPulledData app.metricStore l).1 })
                from rfl]
            exact h1
          · rw [h2]
            rfl

/-- C10. `SymptomManager.addPulledData` inserts or overwrites the pulled
symptoms in the id-keyed map — `get` and `getAll` return them — while
emitting only the external-source event and never touching the
autocomplete index: token-bearing prefix searches are unchanged, and a
symptom that was not indexed before the call is not found by any
token-bearing prefix search afterwards; in contrast, `add` and `update`
do maintain the index. -/
theorem c10_addPulledData_bypasses_index (st : SymptomManagerState) (ps : List Symptom) :
    ((symptomManagerAddPulledData st ps).2 = .smAddedFromExternalSource) ∧
    ((symptomManagerAddPulledData st ps).1.auto = st.auto) ∧
    ((ps.map Symptom.id).Nodup → ∀ s ∈ ps,
      symptomManagerGet (symptomManagerAddPulledData st ps).1 s.id = some s ∧
      s ∈ symptomManagerGetAll (symptomManagerAddPulledData st ps).1) ∧
    (∀ q, tokenizeQuery q ≠ [] →
      searchByPrefixFn (symptomManagerAddPulledData st ps).1 q
        = searchByPrefixFn st q) ∧
    (∀ s, s ∉ st.auto → ∀ q, tokenizeQuery q ≠ [] →
      s ∉ searchByPrefixFn (symptomManagerAddPulledData st ps).1 q) ∧
    (∀ id name otherNames tNow,
      (symptomManagerAdd st id name otherNames tNow).1.auto
        = st.auto ++ [⟨id, name, otherNames, tNow⟩]) ∧
    (∀ updated previous, mapGet st.symptoms updated.id = some previous →
      (symptomManagerUpdate st updated).1.auto
        = (st.auto.erase previous) ++ [updated]) := by
  refine ⟨rfl, rfl, ?_, ?_, ?_, fun _ _ _ _ => rfl, ?_⟩
  · intro hnodup s hs
    have hget : mapGet (symptomManagerAddPulledData st ps).1.symptoms s.id = some s :=
      mapGet_foldl_symptoms_self ps st.symptoms hnodup s hs
    refine ⟨hget, ?_⟩
    have hpair := mapGet_mem _ _ _ hget
    have hval : s ∈ (symptomManagerAddPulledData st ps).1.symptoms.map Prod.snd :=
      List.mem_map.mpr ⟨(s.id, s), hpair, rfl⟩
    exact List.mem_mergeSort.mpr hval
  · intro q hq
    simp only [searchByPrefixFn]
    rw [if_neg hq, if_neg hq]
    rfl
  · intro s hs q hq hmem
    simp only [searchByPrefixFn] at hmem
    rw [if_neg hq] at hmem
    rw [List.mem_mergeSort] at hmem
    have := ((mem_autocompleterV2Search _ _ _).mp hmem).2.1
    exact hs this
  · intro updated previous h
    simp [symptomManagerUpdate, h]

/-- Witness for `c10_addPulledData_bypasses_index` at a concrete input:
a single pulled symptom is retrievable by id but invisible to the
prefix search for its own name. -/
theorem c10_addPulledData_bypasses_index_witness :
    symptomManagerGet
        (symptomManagerAddPulledData ⟨[], []⟩ [⟨"sym_a", "headache", [], 1⟩]).1
        "sym_a" = some ⟨"sym_a", "headache", [], 1⟩ ∧
    (⟨"sym_a", "headache", [], 1⟩ : Symptom) ∉
      searchByPrefixFn
        (symptomManagerAddPulledData ⟨[], []⟩ [⟨"sym_a", "headache", [], 1⟩]).1
        "head" := by
  have h := c10_addPulledData_bypasses_index ⟨[], []⟩ [⟨"sym_a", "headache", [], 1⟩]
  exact ⟨(h.2.2.1 (by decide) ⟨"sym_a", "headache", [], 1⟩ (by decide)).1,
         h.2.2.2.2.1 ⟨"sym_a", "headache", [], 1⟩ (by decide) "head" (by decide)⟩

/-- C8 counterexample: with items whose names are "foo bar" and
"bar blah" and query tokens `["foo", "ba"]`, the legacy
`ItemAutocompleter.search` (part_006/part_008) returns the second item
although it matches no word with prefix "foo" — the result is the union
across tokens, not the intersection the claim states. -/
theorem c8_legacy_union_counterexample :
    (⟨"sym_b", "bar blah", [], 1⟩ : Symptom) ∈
      itemAutocompleterSearch
        [⟨"sym_a", "foo bar", [], 1⟩, ⟨"sym_b", "bar blah", [], 1⟩]
        ["foo", "ba"] ∧
    ((symptomToWords ⟨"sym_b", "bar blah", [], 1⟩).any
        (fun w => strIsPrefixOf (jsToLower "foo") w)) = false := by
  refine ⟨?_, ?_⟩ <;> decide

/-- C8 (amended). The modelled `AutocompleterV2.search` returns exactly
the intersection over tokens of the items having some word with the
lowercased token as prefix (AND semantics, case-insensitive, empty
queries giving the empty result), whereas the legacy
`ItemAutocompleter`/`SymptomAutocompleter` `search` returns the union
across tokens (OR semantics). -/
theorem c8_and_semantics_vs_legacy_union :
    (∀ (auto : List Symptom) (q : String) (s : Symptom),
       s ∈ autocompleterV2Search auto q ↔
         (tokenizeQuery q ≠ [] ∧ s ∈ auto ∧
           ∀ t ∈ tokenizeQuery q, ∃ w ∈ symptomToWords s,
             strIsPrefixOf (jsToLower t) w = true)) ∧
    (∀ (items : List Symptom) (prefixes : List String) (s : Symptom),
       s ∈ itemAutocompleterSearch items prefixes ↔
         (s ∈ items ∧ ∃ p ∈ prefixes, ∃ w ∈ symptomToWords s,
           strIsPrefixOf (jsToLower p) w = true)) := by
  refine ⟨mem_autocompleterV2Search, ?_⟩
  intro items prefixes s
  simp only [itemAutocompleterSearch, mem_dedupFirst, List.mem_flatMap,
    mem_searchSinglePrefix]
  constructor
  · rintro ⟨p, hp, hs, w, hw, hpfx⟩
    exact ⟨hs, p, hp, w, hw, hpfx⟩
  · rintro ⟨hs, p, hp, w, hw, hpfx⟩
    exact ⟨p, hp, hs, w, hw, hpfx⟩

/-! ## The sync tick (`RemoteStorage.innerProcess`, `pullLatestChanges`) -/

/-- Embedding of `ConnectionStatus` (remoteStorage.ts). The value is
computed from `navigator.onLine`, the localhost bypass and the settings;
it is injected here as the environment's verdict. -/
inductive ConnectionStatus where
  | offline
  | missingConfig
  | deviceReady
  deriving DecidableEq, Repr

/-- Embedding of `SyncStatus` (remoteStorage.ts). -/
inductive SyncStatus where
  | offline
  | offlinePendingPush
  | onlineButSyncFailed
  | onlineAndSynced
  | waitingToSync
  | pulling
  | pushing
  deriving DecidableEq, Repr

/-- Embedding of `ReadAllApiError` (api.ts). -/
inductive ReadAllApiError where
  | missingConfigE (reason : String)
  | failedToConnectWithApi (reason : String)
  | failedToGetAll (reason : String)
  deriving DecidableEq, Repr

/-- Outcome of one remote call in the push phase. `entityMissing` embeds
`SymptomDoesNotExit`/`MetricDoesNotExit`. -/
inductive PushOutcome where
  | ok
  | entityMissing
  | connectFailed
  | otherError
  deriving DecidableEq, Repr

/-- The environment of one tick: the connection verdict, the value of
`now()` captured at the start of `pullLatestChanges` (before the
`readAll` request is issued), the API's `readAll` response as a function
of the `publishedSince` anchor, and the API outcome of each push call. -/
structure SyncEnv where
  connection : ConnectionStatus
  tNow : DateMs
  readAll : DateMs → Except ReadAllApiError PulledData
  pushOutcome : ChangeToPush → PushOutcome

/-- The device state a tick reads and writes: domain stores, the change
queue, `lastPulledAt` and the published sync status. -/
structure TickState where
  symptomStore : SymptomManagerState
  metricStore : MetricManagerState
  queue : ChangeQueue
  lastPulledAt : Option DateMs
  syncStatus : SyncStatus
  deriving Repr

/-- Embedding of `RemoteStorage.comparePulledDataWithDomainData`: a
pulled entity is kept iff it is absent locally or not strictly older
than the local copy. -/
def comparePulledDataWithDomainData (symStore : SymptomManagerState)
    (metStore : MetricManagerState) (pulled : PulledData) : PulledData :=
  ⟨pulled.symptoms.filter (fun p =>
      match symptomManagerGet symStore p.id with
      | none => true
      | some inDevice => !(decide (p.lastModified < inDevice.lastModified))),
   pulled.metrics.filter (fun p =>
      match mapGet metStore.metrics p.id with
      | none => true
      | some inDevice => !(decide (p.lastModified < inDevice.lastModified)))⟩

/-- Embedding of the `NewDataPulledFromApi` event handling
(`App.sharePulledDataWithDomain`): each non-empty list is ingested via
`addPulledData`. -/
def applyNewDataPulled (st : TickState) (d : PulledData) : TickState :=
  let s1 := if d.symptoms.length > 0
    then (symptomManagerAddPulledData st.symptomStore d.symptoms).1
    else st.symptomStore
  let m1 := if d.metrics.length > 0
    then (metricManagerAddPulledData st.metricStore d.metrics).1
    else st.metricStore
  { st with symptomStore := s1, metricStore := m1 }

/-- The push phase (`RemoteStorage.pushPendingChanges` plus the
result-inspection loop in `innerProcess`): every queued change is sent;
on success it is dequeued; a missing entity on a Delete is dequeued as
well ("job done"); other failures retain the entry; the boolean records
whether some call failed with `FailedToConnectWithApi`. -/
def pushLoop (outcome : ChangeToPush → PushOutcome) :
    List ChangeToPush → ChangeQueue → Bool → ChangeQueue × Bool
  | [], queue, failed => (queue, failed)
  | c :: rest, queue, failed =>
      match outcome c with
      | .ok => pushLoop outcome rest (mapDelete queue (getChangeId c)) failed
      | .entityMissing =>
          if getChangeKindCategory c = .delete then
            pushLoop outcome rest (mapDelete queue (getChangeId c)) failed
          else pushLoop outcome rest queue failed
      | .connectFailed => pushLoop outcome rest queue true
      | .otherError => pushLoop outcome rest queue failed

/-- Embedding of the whole push phase over the queue's values. -/
def pushPendingChanges (outcome : ChangeToPush → PushOutcome)
    (queue : ChangeQueue) : ChangeQueue × Bool :=
  pushLoop outcome (queue.map Prod.snd) queue false

/-- Embedding of `RemoteStorage.pullLatestChanges`: `currentPullDate :=
now()` is captured before the request; the request is issued with
`publishedSince := getLastPullDate()`; only on success is
`lastPulledAt` set — to the pre-request `currentPullDate`. -/
def pullLatestChanges (env : SyncEnv) (lastPulledAt : Option DateMs) :
    Option DateMs × Except ReadAllApiError PulledData :=
  let currentPullDate := env.tNow
  match env.readAll (getLastPullDate lastPulledAt) with
  | .ok pulled => (some currentPullDate, .ok pulled)
  | .error e => (lastPulledAt, .error e)

/-- Embedding of `RemoteStorage.innerProcess` (remoteStorage.ts): the
connectivity gate, the pull, the two reconciliations, the
`NewDataPulledFromApi` delivery and the push phase, with the statuses
published along the way. -/
def innerProcess (env : SyncEnv) (st : TickState) : TickState :=
  match env.connection with
  | .offline =>
      { st with syncStatus :=
          if st.queue.isEmpty then .offline else .offlinePendingPush }
  | .missingConfig =>
      { st with syncStatus :=
          if st.queue.isEmpty then .offline else .offlinePendingPush }
  | .deviceReady =>
      match (pullLatestChanges env st.lastPulledAt).2 with
      | .error (.missingConfigE _) => { st with syncStatus := .offline }
      | .error (.failedToConnectWithApi _) =>
          { st with syncStatus := .onlineButSyncFailed }
      | .error (.failedToGetAll _) => { st with syncStatus := .onlineButSyncFailed }
      | .ok pulled =>
          let st2 := { st with lastPulledAt := some env.tNow, syncStatus := .pulling }
          let rq := comparePulledDataWithQueuedToPushData st2.queue pulled
          let st3 := { st2 with queue := rq.1 }
          let toShare :=
            comparePulledDataWithDomainData st3.symptomStore st3.metricStore rq.2
          let st4 :=
            if toShare.symptoms.length > 0 || toShare.metrics.length > 0 then
              applyNewDataPulled st3 toShare
            else st3
          let pr := pushPendingChanges env.pushOutcome st4.queue
          if pr.2 then { st4 with queue := pr.1, syncStatus := .onlineButSyncFailed }
          else { st4 with queue := pr.1, syncStatus := .onlineAndSynced }

/-- C5. On a ready device, a successful pull sets `lastPulledAt` to the
`now()` captured before the `readAll` request was issued; on a failed
pull the tick leaves `lastPulledAt`, both domain stores and the change
queue exactly as they were — the only mutation is the sync-status
update (to `offline` for a missing-config error, otherwise to
`onlineButSyncFailed`). -/
theorem c5_pull_failure_mutates_only_status (env : SyncEnv) (st : TickState)
    (hready : env.connection = .deviceReady) :
    (∀ pulled, env.readAll (getLastPullDate st.lastPulledAt) = .ok pulled →
       (innerProcess env st).lastPulledAt = some env.tNow) ∧
    (∀ e, env.readAll (getLastPullDate st.lastPulledAt) = .error e →
       (innerProcess env st).lastPulledAt = st.lastPulledAt ∧
       (innerProcess env st).queue = st.queue ∧
       (innerProcess env st).symptomStore = st.symptomStore ∧
       (innerProcess env st).metricStore = st.metricStore ∧
       ((innerProcess env st).syncStatus = .offline ∨
        (innerProcess env st).syncStatus = .onlineButSyncFailed)) := by
  constructor
  · intro pulled hok
    simp only [innerProcess, hready, pullLatestChanges, hok]
    split
    · split <;> rfl
    · split <;> rfl
  · intro e herr
    simp only [innerProcess, hready, pullLatestChanges, herr]
    cases e <;> exact ⟨rfl, rfl, rfl, rfl, by simp⟩

/-- Witness for `c5_pull_failure_mutates_only_status` at a concrete
failing tick: one queued change, a transport failure — nothing but the
status changes. -/
theorem c5_pull_failure_mutates_only_status_witness :
    (innerProcess
        ⟨.deviceReady, 500, fun _ => .error (.failedToConnectWithApi "net"),
          fun _ => .ok⟩
        ⟨⟨[], []⟩, ⟨[], []⟩, [("sym_a", .deleteSymptom "sym_a" 3)], some 400,
          .waitingToSync⟩).queue
      = [("sym_a", .deleteSymptom "sym_a" 3)] ∧
    (innerProcess
        ⟨.deviceReady, 500, fun _ => .error (.failedToConnectWithApi "net"),
          fun _ => .ok⟩
        ⟨⟨[], []⟩, ⟨[], []⟩, [("sym_a", .deleteSymptom "sym_a" 3)], some 400,
          .waitingToSync⟩).lastPulledAt = some 400 := by
  have h := c5_pull_failure_mutates_only_status
      ⟨.deviceReady, 500, fun _ => .error (.failedToConnectWithApi "net"),
        fun _ => .ok⟩
      ⟨⟨[], []⟩, ⟨[], []⟩, [("sym_a", .deleteSymptom "sym_a" 3)], some 400,
        .waitingToSync⟩
      rfl
  obtain ⟨hl, hq, _⟩ := h.2 (.failedToConnectWithApi "net") rfl
  exact ⟨hq, hl⟩

/-! ## Numeric-intensity encoding (`src/unnamed/part_004`) -/

/-- Embedding of `numberIntensityToIntensity` (part_004): the lookup
table `{0..3: low, 4..6: medium, 7..10: high}`; outside the
`NumericIntensity` range the JavaScript lookup yields `undefined`. -/
def numberIntensityToIntensity (n : Nat) : Option Intensity :=
  match n with
  | 0 => some .low
  | 1 => some .low
  | 2 => some .low
  | 3 => some .low
  | 4 => some .medium
  | 5 => some .medium
  | 6 => some .medium
  | 7 => some .high
  | 8 => some .high
  | 9 => some .high
  | 10 => some .high
  | _ => none

/-- The JavaScript regex character class `\\s` (code points written
explicitly). -/
def isJsSpace (c : Char) : Bool :=
  (c == ' ') || (c == '\t') || (c == '\n') || (c == '\x0b') || (c == '\x0c') ||
  (c == '\r') || (c == Char.ofNat 0x00A0) || (c == Char.ofNat 0x1680) ||
  (decide (0x2000 ≤ c.toNat) && decide (c.toNat ≤ 0x200A)) ||
  (c == Char.ofNat 0x2028) || (c == Char.ofNat 0x2029) ||
  (c == Char.ofNat 0x202F) || (c == Char.ofNat 0x205F) ||
  (c == Char.ofNat 0x3000) || (c == Char.ofNat 0xFEFF)

/-- A JavaScript regex line terminator, which `.` does not match. -/
def isLineTerm (c : Char) : Bool :=
  (c == '\n') || (c == '\r') || (c == Char.ofNat 0x2028) || (c == Char.ofNat 0x2029)

/-- The JavaScript regex `.`: any character except a line terminator. -/
def isDotChar (c : Char) : Bool :=
  !(isLineTerm c)

/-- First branch of the alternation `[0-9]|10` followed by `\/10`: a
single digit and then the literal "/10". -/
def matchSingleDigit (cs : List Char) : Option (Nat × List Char) :=
  match cs with
  | c :: '/' :: '1' :: '0' :: rest =>
      if c.isDigit then some (c.toNat - 48, rest) else none
  | _ => none

/-- Second branch: the literal "10" and then "/10" (tried on
backtracking, exactly as the regex engine does). -/
def matchTen (cs : List Char) : Option (Nat × List Char) :=
  match cs with
  | '1' :: '0' :: '/' :: '1' :: '0' :: rest => some (10, rest)
  | _ => none

/-- A greedy optional single-character match (`\s?`, `-?`); since the
regex tail `(.*)` cannot fail, the greedy choice never backtracks. -/
def skipOpt (p : Char → Bool) (cs : List Char) : List Char :=
  match cs with
  | [] => []
  | c :: rest => if p c then rest else c :: rest

/-- Embedding of `parseNotes` (part_004), i.e. of the anchored regex
`^(?<nIntensity>[0-9]|10)\/10\s?-?\s?(?<notes>.*)` applied with `exec`:
no match leaves the notes untouched with no intensity; on a match the
captured remainder is everything after the optional separator up to the
first line terminator (the JavaScript `.` stops there). -/
def parseNotes (notes : List Char) : Option Nat × List Char :=
  match (matchSingleDigit notes).orElse (fun _ => matchTen notes) with
  | none => (none, notes)
  | some (n, r0) =>
      let r1 := skipOpt isJsSpace r0
      let r2 := skipOpt (fun c => c == '-') r1
      let r3 := skipOpt isJsSpace r2
      (some n, r3.takeWhile isDotChar)

/-- The decimal rendering `${n}` for `n` in the `NumericIntensity`
range. -/
def natToChars (n : Nat) : List Char :=
  if n = 10 then ['1', '0'] else [Char.ofNat (48 + n)]

/-- Embedding of `recomputeMetricNumericIntensity` (part_004): strip any
existing prefix from the notes, bucket the numeric intensity, and
rebuild the notes as `n/10` followed by ` - rest` when the stripped
rest is non-empty. -/
def recomputeMetricNumericIntensity (nIntensity : Nat) (notes : List Char) :
    Option (Intensity × List Char) :=
  let trimmedNotes := (parseNotes notes).2
  match numberIntensityToIntensity nIntensity with
  | none => none
  | some intensity =>
      let updatedNotes := natToChars nIntensity ++ ['/', '1', '0'] ++
        (if trimmedNotes ≠ [] then [' ', '-', ' '] ++ trimmedNotes else [])
      some (intensity, updatedNotes)

/-- Embedding of `setMetricIntensity` (metrics.ts/part_004). -/
def setMetricIntensity (m : Metric) (i : Intensity) (t : DateMs) : Metric :=
  { m with intensity := i, lastModified := t }

/-- Embedding of `setMetricNotes` (metrics.ts/part_004). -/
def setMetricNotes (m : Metric) (notes : List Char) (t : DateMs) : Metric :=
  { m with notes := notes, lastModified := t }

/-- Embedding of `setMetricNumericIntensity` (part_004); the two
`new Date()` stamps are injected as one `tNow`. -/
def setMetricNumericIntensity (metric : Metric) (nIntensity : Nat) (tNow : DateMs) :
    Option Metric :=
  match recomputeMetricNumericIntensity nIntensity metric.notes with
  | none => none
  | some r =>
      some (setMetricNotes (setMetricIntensity metric r.1 tNow) r.2 tNow)

theorem takeWhile_eq_self_of_forall {α : Type} (p : α → Bool) (l : List α)
    (h : ∀ c ∈ l, p c = true) : l.takeWhile p = l := by
  induction l with
  | nil => rfl
  | cons c rest ih =>
      rw [List.takeWhile_cons, if_pos (h c (List.mem_cons_self _ _)),
        ih (fun x hx => h x (List.mem_cons_of_mem _ hx))]

/-- Parsing the freshly written notes: for `n` in `1..10` and any
stripped rest, the regex recovers `n` and the rest truncated at the
first line terminator. -/
theorem parseNotes_generated (n : Nat) (h1 : 1 ≤ n) (h2 : n ≤ 10)
    (rest : List Char) :
    parseNotes (natToChars n ++ ['/', '1', '0'] ++
        (if rest ≠ [] then [' ', '-', ' '] ++ rest else []))
      = (some n, rest.takeWhile isDotChar) := by
  interval_cases n <;> rcases rest with _ | ⟨c, cs⟩ <;> rfl

/-- C9 counterexample: a metric whose notes are "a\nb" (no existing
prefix, so the stripped rest is the whole notes), written with n = 7,
yields notes "7/10 - a\nb"; parsing them back returns rest "a", not
"a\nb" — the round-trip loses everything from the first line
terminator on. -/
theorem c9_roundtrip_newline_counterexample :
    setMetricNumericIntensity ⟨"met_1", "sym_a", .low, 5, ['a', '\n', 'b'], 5⟩ 7 9
      = some ⟨"met_1", "sym_a", .high, 5,
          ['7', '/', '1', '0', ' ', '-', ' ', 'a', '\n', 'b'], 9⟩ ∧
    parseNotes ['7', '/', '1', '0', ' ', '-', ' ', 'a', '\n', 'b']
      = (some 7, ['a']) ∧
    (['a'] : List Char) ≠ ['a', '\n', 'b'] := by
  refine ⟨?_, ?_, ?_⟩ <;> decide

/-- C9 (amended). For every metric and n in 1..10,
`setMetricNumericIntensity` buckets the categorical intensity (1–3 low,
4–6 medium, 7–10 high) and rewrites the notes as "n/10" followed by
" - rest" (just "n/10" when rest is empty), where rest is the original
notes with any numeric-intensity prefix stripped; parsing the result
returns nIntensity = n and rest truncated at its first line terminator
(the regex `.` stops there) — in particular the exact round-trip holds
whenever rest contains no line terminator. -/
theorem c9_set_numeric_intensity_roundtrip (m : Metric) (n : Nat) (tNow : DateMs)
    (h1 : 1 ≤ n) (h2 : n ≤ 10) :
    ∃ m2, setMetricNumericIntensity m n tNow = some m2 ∧
      m2.intensity
        = (if n ≤ 3 then Intensity.low else if n ≤ 6 then .medium else .high) ∧
      m2.notes = natToChars n ++ ['/', '1', '0'] ++
        (if (parseNotes m.notes).2 ≠ []
         then [' ', '-', ' '] ++ (parseNotes m.notes).2 else []) ∧
      parseNotes m2.notes
        = (some n, ((parseNotes m.notes).2).takeWhile isDotChar) ∧
      ((∀ c ∈ (parseNotes m.notes).2, isDotChar c = true) →
        parseNotes m2.notes = (some n, (parseNotes m.notes).2)) := by
  have hbucket : numberIntensityToIntensity n
      = some (if n ≤ 3 then Intensity.low else if n ≤ 6 then .medium else .high) := by
    interval_cases n <;> rfl
  refine ⟨setMetricNotes
      (setMetricIntensity m
        (if n ≤ 3 then Intensity.low else if n ≤ 6 then .medium else .high) tNow)
      (natToChars n ++ ['/', '1', '0'] ++
        (if (parseNotes m.notes).2 ≠ []
         then [' ', '-', ' '] ++ (parseNotes m.notes).2 else [])) tNow,
    ?_, rfl, rfl, ?_, ?_⟩
  · simp only [setMetricNumericIntensity, recomputeMetricNumericIntensity, hbucket]
  · exact parseNotes_generated n h1 h2 _
  · intro hdot
    rw [show (setMetricNotes
        (setMetricIntensity m
          (if n ≤ 3 then Intensity.low else if n ≤ 6 then .medium else .high) tNow)
        (natToChars n ++ ['/', '1', '0'] ++
          (if (parseNotes m.notes).2 ≠ []
           then [' ', '-', ' '] ++ (parseNotes m.notes).2 else [])) tNow).notes
      = natToChars n ++ ['/', '1', '0'] ++
          (if (parseNotes m.notes).2 ≠ []
           then [' ', '-', ' '] ++ (parseNotes m.notes).2 else []) from rfl]
    rw [parseNotes_generated n h1 h2 _,
      takeWhile_eq_self_of_forall isDotChar _ hdot]

/-- Witness for `c9_set_numeric_intensity_roundtrip` at notes
"3/10 - ok" and n = 7. -/
theorem c9_set_numeric_intensity_roundtrip_witness :
    ∃ m2, setMetricNumericIntensity
        ⟨"met_1", "sym_a", .low, 5, ['3', '/', '1', '0', ' ', '-', ' ', 'o', 'k'], 5⟩
        7 9 = some m2 ∧
      m2.intensity = (if 7 ≤ 3 then Intensity.low
        else if 7 ≤ 6 then .medium else .high) ∧
      m2.notes = natToChars 7 ++ ['/', '1', '0'] ++
        (if (parseNotes ['3', '/', '1', '0', ' ', '-', ' ', 'o', 'k']).2 ≠ []
         then [' ', '-', ' ']
              ++ (parseNotes ['3', '/', '1', '0', ' ', '-', ' ', 'o', 'k']).2
         else []) ∧
      parseNotes m2.notes
        = (some 7, ((parseNotes ['3', '/', '1', '0', ' ', '-', ' ', 'o', 'k']).2).takeWhile
            isDotChar) ∧
      ((∀ c ∈ (parseNotes ['3', '/', '1', '0', ' ', '-', ' ', 'o', 'k']).2,
          isDotChar c = true) →
        parseNotes m2.notes
          = (some 7, (parseNotes ['3', '/', '1', '0', ' ', '-', ' ', 'o', 'k']).2)) :=
  c9_set_numeric_intensity_roundtrip
    ⟨"met_1", "sym_a", .low, 5, ['3', '/', '1', '0', ' ', '-', ' ', 'o', 'k'], 5⟩
    7 9 (by decide) (by decide)
